import Mathlib

/-!
Verification development for the ModK front end (lexer.cpp, parser.cpp):
a shallow embedding of the scanner, the recursive-descent parser and the
code generator, together with theorems settling the specification claims.

Conventions of the embedding:
* the character source is a Lean list of characters; the C getchar()
  returning EOF is modelled by an Option Char that is none at end of input;
* the static LastCharacter of GetToken together with the not-yet-consumed
  input forms the scanner state (LexState);
* the lexeme payloads IdentifierStr and NumberStr are carried inside the
  produced token (they are read by the parser immediately after the token
  is produced, before the next token overwrites them).  NumberVal is
  strtod(NumberStr); the embedding carries NumberStr itself, the exact
  character sequence handed to strtod;
* GetToken is recursive (a comment restarts it); the embedding gives it
  explicit fuel and proves that fuel (input length + 1) always suffices.
-/

namespace ModK

/-- Classification of isspace for the C locale: space and \t \n \v \f \r. -/
def isSpaceC (c : Char) : Bool :=
  decide (c.toNat = 32) || (decide (9 ≤ c.toNat) && decide (c.toNat ≤ 13))

/-- Classification of isalpha for the C locale (ASCII letters). -/
def isAlphaC (c : Char) : Bool :=
  (decide (65 ≤ c.toNat) && decide (c.toNat ≤ 90)) ||
  (decide (97 ≤ c.toNat) && decide (c.toNat ≤ 122))

/-- Classification of isdigit. -/
def isDigitC (c : Char) : Bool :=
  decide (48 ≤ c.toNat) && decide (c.toNat ≤ 57)

/-- Classification of isalnum. -/
def isAlnumC (c : Char) : Bool :=
  isAlphaC c || isDigitC c

/-- Condition of the number-literal accumulation loop of GetToken:
isdigit(LastCharacter) || LastCharacter == the decimal point. -/
def isDigitOrDot (c : Char) : Bool :=
  isDigitC c || decide (c = '.')

/-- The tokens of lexer.cpp.  The source returns an int: a negative
enumerator for the known tokens, otherwise the raw character code
(constructor TokenRaw).  TokenIdentifier carries IdentifierStr and
TokenNumber carries NumberStr as read at the moment the token is
produced. -/
inductive Token where
  | Token_EOF : Token
  | Token_func : Token
  | Token_i32 : Token
  | Token_u32 : Token
  | Token_char : Token
  | Token_uchar : Token
  | Token_str : Token
  | Token_f32 : Token
  | Token_uf32 : Token
  | TokenIdentifier (s : String) : Token
  | TokenNumber (s : String) : Token
  | TokenRaw (c : Char) : Token
deriving DecidableEq

/-- Scanner state: the static LastCharacter (none once getchar returned
EOF) and the characters not yet read. -/
structure LexState where
  lastChar : Option Char
  input : List Char
deriving DecidableEq

/-- The whitespace loop of GetToken: while isspace(LastCharacter)
LastCharacter = getchar().  Returns the new LastCharacter and the
remaining input. -/
def skipSpaces (c : Option Char) (l : List Char) : Option Char × List Char :=
  match c with
  | none => (none, l)
  | some c1 =>
    if isSpaceC c1 then
      match l with
      | [] => (none, [])
      | d :: r => skipSpaces (some d) r
    else (some c1, l)

/-- The identifier loop: while isalnum(LastCharacter = getchar())
IdentifierStr += LastCharacter.  Returns the accumulated characters
after the first one, the new LastCharacter and the remaining input. -/
def readIdent : List Char → List Char × Option Char × List Char
  | [] => ([], none, [])
  | c :: r =>
    if isAlnumC c then
      let q := readIdent r
      (c :: q.1, q.2.1, q.2.2)
    else ([], some c, r)

/-- The number do-while loop: NumberStr += LastCharacter;
LastCharacter = getchar(); repeated while isdigit or decimal point.
The first argument is the character already in LastCharacter; the
result is the full NumberStr, the new LastCharacter and the rest. -/
def readNum (c : Char) : List Char → List Char × Option Char × List Char
  | [] => ([c], none, [])
  | d :: r =>
    if isDigitOrDot d then
      let q := readNum d r
      (c :: q.1, q.2.1, q.2.2)
    else ([c], some d, r)

/-- The comment do-while loop: LastCharacter = getchar(), repeated while
LastCharacter is not EOF, not a newline and not the letter r (the source
compares against the letter r, not against a carriage return). -/
def skipComment : List Char → Option Char × List Char
  | [] => (none, [])
  | c :: r =>
    if c = '\n' ∨ c = 'r' then (some c, r) else skipComment r

/-- The keyword switch of GetToken over IdentifierStr. -/
def classifyIdent (s : String) : Token :=
  if s = "func" then .Token_func
  else if s = "i32" then .Token_i32
  else if s = "u32" then .Token_u32
  else if s = "char" then .Token_char
  else if s = "uchar" then .Token_uchar
  else if s = "str" then .Token_str
  else if s = "f32" then .Token_f32
  else if s = "uf32" then .Token_uf32
  else .TokenIdentifier s

/-- GetToken of lexer.cpp with explicit fuel; the fuel is spent only by
the recursive call made after a comment.  Returns none when the fuel
runs out (the termination theorem shows input length + 1 always
suffices). -/
def GetTokenFuel : Nat → LexState → Option (Token × LexState)
  | 0, _ => none
  | fuel + 1, st =>
    let p := skipSpaces st.lastChar st.input
    match p.1 with
    | none => some (.Token_EOF, ⟨none, p.2⟩)
    | some c =>
      if isAlphaC c then
        let q := readIdent p.2
        some (classifyIdent (String.mk (c :: q.1)), ⟨q.2.1, q.2.2⟩)
      else if isDigitOrDot c then
        let q := readNum c p.2
        some (.TokenNumber (String.mk q.1), ⟨q.2.1, q.2.2⟩)
      else if c = '#' then
        let q := skipComment p.2
        match q.1 with
        | some c2 => GetTokenFuel fuel ⟨some c2, q.2⟩
        | none => some (.Token_EOF, ⟨none, q.2⟩)
      else
        some (.TokenRaw c, ⟨p.2.head?, p.2.tail⟩)

/-- GetToken run with sufficient fuel. -/
def GetToken (st : LexState) : Token × LexState :=
  (GetTokenFuel (st.input.length + 1) st).getD (.Token_EOF, st)

/-- Initial scanner state: LastCharacter starts as a space. -/
def initLex (s : List Char) : LexState :=
  ⟨some ' ', s⟩

theorem skipSpaces_length (c : Option Char) (l : List Char) :
    (skipSpaces c l).2.length ≤ l.length := by
  induction l generalizing c with
  | nil =>
    cases c with
    | none => simp [skipSpaces]
    | some c1 => simp only [skipSpaces]; split <;> simp
  | cons d r ih =>
    cases c with
    | none => simp [skipSpaces]
    | some c1 =>
      by_cases h : isSpaceC c1 = true
      · simpa [skipSpaces, h] using Nat.le_succ_of_le (ih (some d))
      · simp [skipSpaces, h]

theorem skipComment_length (l : List Char) (c : Char) (r : List Char)
    (h : skipComment l = (some c, r)) : r.length < l.length := by
  induction l with
  | nil => simp [skipComment] at h
  | cons d t ih =>
    by_cases hd : d = '\n' ∨ d = 'r'
    · simp only [skipComment, if_pos hd, Prod.mk.injEq, Option.some.injEq] at h
      exact h.2 ▸ Nat.lt_succ_self _
    · simp only [skipComment, if_neg hd] at h
      exact Nat.lt_succ_of_lt (ih h)

theorem GetTokenFuel_isSome (fuel : Nat) (st : LexState)
    (h : st.input.length < fuel) : (GetTokenFuel fuel st).isSome := by
  induction fuel generalizing st with
  | zero => omega
  | succ fuel ih =>
    have hsp : (skipSpaces st.lastChar st.input).2.length ≤ st.input.length :=
      skipSpaces_length _ _
    rcases hp : skipSpaces st.lastChar st.input with ⟨c?, l⟩
    have hsp2 : l.length ≤ st.input.length := by rw [hp] at hsp; simpa using hsp
    simp only [GetTokenFuel, hp]
    cases c? with
    | none => simp
    | some c =>
      by_cases h1 : isAlphaC c = true
      · simp [h1]
      · by_cases h2 : isDigitOrDot c = true
        · simp [h1, h2]
        · by_cases h3 : c = '#'
          · rcases hq : skipComment l with ⟨oc, r⟩
            cases oc with
            | none => simp [h1, h2, if_pos h3, hq]
            | some c2 =>
              have hlt : r.length < l.length := skipComment_length l c2 r hq
              have hs : (GetTokenFuel fuel ⟨some c2, r⟩).isSome :=
                ih _ (by show r.length < fuel; omega)
              simpa [h1, h2, if_pos h3, hq] using hs
          · simp [h1, h2, h3]

/-- C10: GetToken terminates for every finite character source and always
returns a token: fuel equal to the remaining input length plus one always
suffices for GetTokenFuel, whose recursive self-call after a comment runs
on a strictly shorter input, and the result is the token GetToken yields. -/
theorem C10_getToken_terminates (st : LexState) :
    GetTokenFuel (st.input.length + 1) st = some (GetToken st) := by
  have h := GetTokenFuel_isSome (st.input.length + 1) st (by omega)
  obtain ⟨r, hr⟩ := Option.isSome_iff_exists.mp h
  rw [GetToken, hr]
  simp

/-- C7: the claim says comment text never produces a token.  The code
contradicts it: the comment-skipping loop of GetToken stops at the letter
r (the source compares against the letter r rather than a carriage
return), so a comment containing an r is cut short and the scanner lexes
the remainder of the comment.  On the input "# r\n5" the first token is
the identifier r taken from inside the comment, not the number 5.  For a
comment free of the letter r the claimed behaviour does hold (second and
third conjuncts), and a comment running to end of input yields the
End-of-input token (fourth conjunct). -/
theorem C7_comment_counterexample :
    GetToken (initLex "# r\n5".data) =
        (.TokenIdentifier "r", ⟨some '\n', ['5']⟩) ∧
    GetToken (initLex "# x\n5".data) = (.TokenNumber "5", ⟨none, []⟩) ∧
    GetToken (initLex "# x\n5".data) = GetToken (initLex "5".data) ∧
    GetToken (initLex "#ab".data) = (.Token_EOF, ⟨none, []⟩) := by
  refine ⟨by decide, by decide, by decide, by decide⟩

/-- Head of the remaining input is not a digit and not a decimal point
(vacuously true at end of input). -/
def headNotNum : List Char → Bool
  | [] => true
  | d :: _ => !isDigitOrDot d

theorem numChar_not_space_alpha (c : Char) (hc : isDigitOrDot c = true) :
    isSpaceC c = false ∧ isAlphaC c = false := by
  simp only [isDigitOrDot, isDigitC, Bool.or_eq_true, Bool.and_eq_true,
    decide_eq_true_eq] at hc
  rcases hc with ⟨h1, h2⟩ | h
  · refine ⟨?_, ?_⟩ <;>
      simp only [isSpaceC, isAlphaC, Bool.or_eq_false_iff, Bool.and_eq_false_iff,
        decide_eq_false_iff_not] <;> omega
  · subst h; exact ⟨by decide, by decide⟩

theorem skipSpaces_of_not_space (c : Char) (l : List Char)
    (h : isSpaceC c = false) : skipSpaces (some c) l = (some c, l) := by
  cases l <;> simp [skipSpaces, h]

theorem readNum_run (c : Char) (run rest : List Char)
    (hrun : ∀ d ∈ run, isDigitOrDot d = true)
    (hrest : headNotNum rest = true) :
    readNum c (run ++ rest) = (c :: run, rest.head?, rest.tail) := by
  induction run generalizing c with
  | nil =>
    cases rest with
    | nil => simp [readNum]
    | cons d r =>
      have hd : isDigitOrDot d = false := by
        simpa [headNotNum] using hrest
      simp [readNum, hd]
  | cons d run ih =>
    have hd : isDigitOrDot d = true := hrun d (by simp)
    have hrun2 : ∀ e ∈ run, isDigitOrDot e = true := fun e he => hrun e (by simp [he])
    simp [readNum, hd, ih d hrun2]

/-- C8: for every maximal sequence of digits and decimal points (the
character in LastCharacter followed by the run, with the next character
of the input not a digit or decimal point), GetToken returns a
NumberLiteral token and never fails; NumberStr is exactly that character
sequence, including malformed ones such as several decimal points, and
NumberVal is strtod applied to exactly it (the token carries NumberStr,
the precise argument handed to strtod). -/
theorem C8_number_literal (c : Char) (run rest : List Char)
    (hc : isDigitOrDot c = true)
    (hrun : ∀ d ∈ run, isDigitOrDot d = true)
    (hrest : headNotNum rest = true) :
    GetToken ⟨some c, run ++ rest⟩ =
      (.TokenNumber (String.mk (c :: run)), ⟨rest.head?, rest.tail⟩) := by
  obtain ⟨hs, ha⟩ := numChar_not_space_alpha c hc
  rw [GetToken]
  simp only [GetTokenFuel, skipSpaces_of_not_space c _ hs, ha,
    Bool.false_eq_true, if_false, hc, if_true,
    readNum_run c run rest hrun hrest, Option.getD_some]

/-- Witness for C8 at the malformed literal 1.2. followed by a plus
sign: the scanner returns the NumberLiteral token for exactly the
characters 1.2. and leaves the plus sign as lookahead. -/
theorem C8_number_literal_witness :
    GetToken ⟨some '1', ['.', '2', '.'] ++ ['+', 'x']⟩ =
      (.TokenNumber (String.mk ['1', '.', '2', '.']), ⟨some '+', ['x']⟩) :=
  C8_number_literal '1' ['.', '2', '.'] ['+', 'x'] (by decide) (by decide)
    (by decide)

/-! ## Parser (parser.cpp)

The parser keeps one token of lookahead (CurrentToken) over the scanner.
The embedding models the pending scanner output as a list of tokens
(padded with Token_EOF once exhausted, exactly what GetToken yields at end
of input) and the diagnostics printed by LogError as a list of messages
carried in the parser state. -/

/-- The expression AST of parser.cpp: NumberLiteralAST (payload NumberStr,
standing for the double NumberVal), VariableExpressionAST (built by
ParseIdentifierExpr for a bare identifier), BinaryExpressionAST with
fields m_Operator, LHS, RHS, and FuncCallAST (callee name and argument
subtrees). -/
inductive ExpressionAST where
  | NumberLiteral (v : String)
  | Variable (name : String)
  | Binary (op : Char) (lhs rhs : ExpressionAST)
  | Call (callee : String) (args : List ExpressionAST)

/-- Parser state: CurrentToken, the tokens the scanner will hand over
next, and the diagnostics LogError has printed so far. -/
structure PState where
  cur : Token
  rest : List Token
  diags : List String

/-- GetNextToken: CurrentToken = GetToken(); at end of input the scanner
keeps returning Token_EOF. -/
def GetNextToken (s : PState) : PState :=
  ⟨s.rest.headD .Token_EOF, s.rest.tail, s.diags⟩

/-- LogError prints the message to stderr and returns null; the embedding
records the message and the caller pairs the state with none. -/
def LogError (s : PState) (msg : String) : PState :=
  ⟨s.cur, s.rest, s.diags ++ [msg]⟩

/-- ParseNumExpr: builds a number-literal node from NumberVal and
advances. -/
def ParseNumExpr (v : String) (s : PState) : Option ExpressionAST × PState :=
  (some (.NumberLiteral v), GetNextToken s)

/-- Modelled from the spec: ParsePrimary names ParseIntegerExpression,
ParseUIntegerExpression, ParseCharacterExpression,
ParseUCharacterExpression, ParseStrExpression, ParseFloatExpression and
ParseUFloatExpression for the primitive-type keyword tokens, but no such
function exists anywhere in the repository; the spec says this path is
unfinished and any such case is treated as a parse error (unknown
token). -/
def ParseTypeKeywordExpr (s : PState) : Option ExpressionAST × PState :=
  (none, LogError s "> Unkown token while parsing")

section Parser

variable (BinOpPrecedence : Char → Int)

/-- GetTokenPrecedence: -1 unless CurrentToken is an ASCII character
token with a strictly positive entry in BinOpPrecedence (the enumerated
tokens have negative codes and are never ASCII). -/
def GetTokenPrecedence (t : Token) : Int :=
  match t with
  | .TokenRaw c =>
    if c.toNat ≤ 127 then
      if BinOpPrecedence c ≤ 0 then -1 else BinOpPrecedence c
    else -1
  | _ => -1

mutual

/-- ParseExpression: parse a primary expression, then hand it to
ParseBinaryOpRHS with minimum precedence 0. -/
def ParseExpression : Nat → PState → Option ExpressionAST × PState
  | 0, s => (none, s)
  | fuel + 1, s =>
    match ParsePrimary fuel s with
    | (none, s1) => (none, s1)
    | (some lhs, s1) => ParseBinaryOpRHS fuel 0 lhs s1

/-- ParseBinaryOpRHS of parser.cpp.  Two points are kept exactly as the
source has them: (a) when the operator after the freshly parsed right
operand binds strictly tighter than the one just consumed, the source
returns nullptr instead of recursing at a higher minimum precedence (its
comment defers that work), and (b) the construction site passes
std::move(LHS) as the constructor parameter that the initializer list
stores into the RHS field and std::move(RHS) as the one stored into the
LHS field, so the built node holds the later-parsed operand in LHS. -/
def ParseBinaryOpRHS : Nat → Int → ExpressionAST → PState →
    Option ExpressionAST × PState
  | 0, _, _, s => (none, s)
  | fuel + 1, exprPrec, lhs, s =>
    let tokPrec := GetTokenPrecedence BinOpPrecedence s.cur
    if tokPrec < exprPrec then (some lhs, s)
    else
      match s.cur with
      | .TokenRaw op =>
        let s1 := GetNextToken s
        match ParsePrimary fuel s1 with
        | (none, s2) => (none, s2)
        | (some rhs, s2) =>
          let nextPrec := GetTokenPrecedence BinOpPrecedence s2.cur
          if tokPrec < nextPrec then (none, s2)
          else ParseBinaryOpRHS fuel exprPrec (.Binary op rhs lhs) s2
      | _ => (some lhs, s)

/-- ParsePrimary of parser.cpp: identifiers, the func keyword (which the
source sends to ParseParentExpression), number literals, the
primitive-type keywords (whose parse functions do not exist, see
ParseTypeKeywordExpr) and the unknown-token default.  There is no case
for a raw open-parenthesis token: it falls into the default. -/
def ParsePrimary : Nat → PState → Option ExpressionAST × PState
  | 0, s => (none, s)
  | fuel + 1, s =>
    match s.cur with
    | .TokenIdentifier name => ParseIdentifierExpr fuel name s
    | .Token_func => ParseParentExpr fuel s
    | .TokenNumber v => ParseNumExpr v s
    | .Token_i32 | .Token_u32 | .Token_char | .Token_uchar
    | .Token_str | .Token_f32 | .Token_uf32 => ParseTypeKeywordExpr s
    | _ => (none, LogError s "> Unkown token while parsing")

/-- ParseParentExpr: consume the current token, parse an inner expression
and require a close-parenthesis token, which is then consumed. -/
def ParseParentExpr : Nat → PState → Option ExpressionAST × PState
  | 0, s => (none, s)
  | fuel + 1, s =>
    let s1 := GetNextToken s
    match ParseExpression fuel s1 with
    | (none, s2) => (none, s2)
    | (some v, s2) =>
      if s2.cur = .TokenRaw ')' then (some v, GetNextToken s2)
      else (none, LogError s2 "> Expected close paren")

/-- ParseIdentifierExpr: a bare identifier becomes a variable reference;
an identifier followed by an open parenthesis starts a call.  As in the
source, the open parenthesis is not consumed before the argument loop is
entered (the loop starts with CurrentToken still the open
parenthesis). -/
def ParseIdentifierExpr : Nat → String → PState → Option ExpressionAST × PState
  | 0, _, s => (none, s)
  | fuel + 1, name, s =>
    let s1 := GetNextToken s
    if s1.cur = .TokenRaw '(' then
      match
        (if s1.cur = .TokenRaw ')' then (some [], s1)
         else ParseArgsLoop fuel [] s1) with
      | (none, s2) => (none, s2)
      | (some args, s2) => (some (.Call name args), GetNextToken s2)
    else (some (.Variable name), s1)

/-- The argument loop of ParseIdentifierExpr: parse an expression, stop
at a close parenthesis, require a comma otherwise and continue. -/
def ParseArgsLoop : Nat → List ExpressionAST → PState →
    Option (List ExpressionAST) × PState
  | 0, _, s => (none, s)
  | fuel + 1, acc, s =>
    match ParseExpression fuel s with
    | (none, s1) => (none, s1)
    | (some a, s1) =>
      let acc1 := acc ++ [a]
      if s1.cur = .TokenRaw ')' then (some acc1, s1)
      else if s1.cur = .TokenRaw ',' then ParseArgsLoop fuel acc1 (GetNextToken s1)
      else (none, LogError s1 "> Expected close paren or comma in arg list")

end

end Parser

/-- The operator table of the claims: multiplication binds strictly
tighter than addition, subtraction at the same precedence as addition. -/
def precTable : Char → Int := fun c =>
  if c = '*' then 40
  else if c = '+' then 20
  else if c = '-' then 20
  else 0

/-- C1: the claim says the three streams parse to 1 + (2 * 3),
(1 * 2) + 3 and (1 - 2) - 3 with each node holding the earlier-parsed
operand in its left child.  The code refutes it twice over: on
1 + 2 * 3 ParseBinaryOpRHS meets the strictly tighter * after the right
operand 2 and returns null (the recursive climb is stubbed out with
return nullptr), so the parse fails with no diagnostic; and on the two
streams that do parse, every BinaryExpression node stores the
later-parsed operand in its LHS field (the constructor call swaps the
operands), so 1 * 2 + 3 gives Binary + with LHS 3, and 1 - 2 - 3 gives
Binary - with LHS 3 — the shapes are those of left-associative grouping
but with the children of every node exchanged. -/
theorem C1_precedence_counterexample :
    ParseExpression precTable 20
      ⟨.TokenNumber "1",
        [.TokenRaw '+', .TokenNumber "2", .TokenRaw '*', .TokenNumber "3"], []⟩
      = (none, ⟨.TokenRaw '*', [.TokenNumber "3"], []⟩) ∧
    ParseExpression precTable 20
      ⟨.TokenNumber "1",
        [.TokenRaw '*', .TokenNumber "2", .TokenRaw '+', .TokenNumber "3"], []⟩
      = (some (.Binary '+' (.NumberLiteral "3")
          (.Binary '*' (.NumberLiteral "2") (.NumberLiteral "1"))),
         ⟨.Token_EOF, [], []⟩) ∧
    ParseExpression precTable 20
      ⟨.TokenNumber "1",
        [.TokenRaw '-', .TokenNumber "2", .TokenRaw '-', .TokenNumber "3"], []⟩
      = (some (.Binary '-' (.NumberLiteral "3")
          (.Binary '-' (.NumberLiteral "2") (.NumberLiteral "1"))),
         ⟨.Token_EOF, [], []⟩) :=
  ⟨rfl, rfl, rfl⟩

/-- C2: the claim says "(1 + 2" fails with a parse error and no node
(which holds, first conjunct, with exactly one diagnostic) and that
"(1 + 2)" succeeds indistinguishably from "1 + 2".  The code refutes the
second half: ParsePrimary has no case for an open-parenthesis token
(ParseParentExpr is reachable only from the func keyword), so the
open parenthesis falls into the unknown-token default and "(1 + 2)"
fails exactly like the unterminated input (second conjunct), while
"1 + 2" itself parses fine (third conjunct). -/
theorem C2_paren_counterexample :
    ParseExpression precTable 20
      ⟨.TokenRaw '(', [.TokenNumber "1", .TokenRaw '+', .TokenNumber "2"], []⟩
      = (none, ⟨.TokenRaw '(',
          [.TokenNumber "1", .TokenRaw '+', .TokenNumber "2"],
          ["> Unkown token while parsing"]⟩) ∧
    ParseExpression precTable 20
      ⟨.TokenRaw '(',
        [.TokenNumber "1", .TokenRaw '+', .TokenNumber "2", .TokenRaw ')'], []⟩
      = (none, ⟨.TokenRaw '(',
          [.TokenNumber "1", .TokenRaw '+', .TokenNumber "2", .TokenRaw ')'],
          ["> Unkown token while parsing"]⟩) ∧
    ParseExpression precTable 20
      ⟨.TokenNumber "1", [.TokenRaw '+', .TokenNumber "2"], []⟩
      = (some (.Binary '+' (.NumberLiteral "2") (.NumberLiteral "1")),
         ⟨.Token_EOF, [], []⟩) :=
  ⟨rfl, rfl, rfl⟩

/-- C6: the claim says any primitive-type keyword token or the function
keyword token in primary position makes ParsePrimary return null after
exactly one diagnostic and never build a node.  The code refutes the
function-keyword half: ParsePrimary dispatches Token_func to
ParseParentExpression, which here parses the following tokens as a
parenthesized expression and returns a real node with no diagnostic at
all (first conjunct).  A primitive-type keyword does produce one
diagnostic and no node (second conjunct), through the spec-modelled
stand-in for the parse functions the repository never defines. -/
theorem C6_primary_error_counterexample :
    ParsePrimary precTable 10
      ⟨.Token_func, [.TokenNumber "1", .TokenRaw ')'], []⟩
      = (some (.NumberLiteral "1"), ⟨.Token_EOF, [], []⟩) ∧
    ParsePrimary precTable 10 ⟨.Token_i32, [], []⟩
      = (none, ⟨.Token_i32, [], ["> Unkown token while parsing"]⟩) :=
  ⟨rfl, rfl⟩

/-! ## Code generator (parser.cpp, CODEGEN_IMPL region) -/

/-- An opaque lowered value handle: a floating-point constant (carrying
the literal text whose strtod value it holds), a function parameter, or
a reference to the builder instruction that produced it. -/
inductive Value where
  | constFP (v : String)
  | arg (fn : String) (name : String)
  | instr (n : Nat)
deriving DecidableEq

/-- The primitive IR operations the code generator emits through the
builder. -/
inductive Instr where
  | fadd (l r : Value)
  | fsub (l r : Value)
  | fmul (l r : Value)
  | fcmpULT (l r : Value)
  | uitofp (v : Value)
  | callInstr (callee : String) (args : List Value)
  | ret (v : Value)
deriving DecidableEq

/-- The builder: the sequence of instructions emitted so far. -/
abbrev Builder := List Instr

/-- A builder CreateX call appends one instruction and returns the handle
of the value it produces. -/
def emit (b : Builder) (i : Instr) : Builder × Value :=
  (b ++ [i], .instr b.length)

/-- Outcome of one lowering: a value, an absent result (the nullptr the
error paths return after LogErrorV), or the distinct outcome of the one
code path that ends a value-returning function without any return
statement (undefined behaviour, modelled explicitly and propagated). -/
inductive Res (α : Type) where
  | ok (v : α)
  | err
  | undef
deriving DecidableEq

/-- A module function-table entry: the parameter names of the declaration
and whether the function is non-empty, i.e. owns its entry basic block
and therefore a body. -/
structure FuncEntry where
  params : List String
  defined : Bool
deriving DecidableEq

/-- TheModule's function table. -/
abbrev Module := List (String × FuncEntry)

/-- TheModule->getFunction. -/
def getFunction : Module → String → Option FuncEntry
  | [], _ => none
  | (k, e) :: rest, n => if k = n then some e else getFunction rest n

/-- NamedValues: parameter name to value handle; map assignment
overwrites, modelled by consing and first-match lookup. -/
abbrev NamedValues := List (String × Value)

def lookupNV : NamedValues → String → Option Value
  | [], _ => none
  | (k, v) :: rest, n => if k = n then some v else lookupNV rest n

mutual

/-- codegen of the expression nodes of parser.cpp.  NumberExpressionAST
yields a constant; VariableExpressionAST looks NamedValues up (absence
logs unknown variable and the null V is returned); BinaryExpressionAST
lowers both operands before the null check, then dispatches on the
operator character, and its default case calls LogErrorV but discards
the result and falls off the end of the function — kept as the distinct
outcome Res.undef; CallExpressionAST resolves the callee, checks the
arity, lowers the arguments left to right aborting at the first failure
and emits one call instruction. -/
def codegenExpr (mod : Module) (nv : NamedValues) :
    ExpressionAST → Builder → Builder × Res Value
  | .NumberLiteral v, b => (b, .ok (.constFP v))
  | .Variable n, b =>
    match lookupNV nv n with
    | some v => (b, .ok v)
    | none => (b, .err)
  | .Binary op l r, b =>
    let pl := codegenExpr mod nv l b
    let pr := codegenExpr mod nv r pl.1
    match pl.2, pr.2 with
    | .ok vl, .ok vr =>
      if op = '+' then
        let q := emit pr.1 (.fadd vl vr)
        (q.1, .ok q.2)
      else if op = '-' then
        let q := emit pr.1 (.fsub vl vr)
        (q.1, .ok q.2)
      else if op = '*' then
        let q := emit pr.1 (.fmul vl vr)
        (q.1, .ok q.2)
      else if op = '<' then
        let q := emit pr.1 (.fcmpULT vl vr)
        let q2 := emit q.1 (.uitofp q.2)
        (q2.1, .ok q2.2)
      else (pr.1, .undef)
    | .err, _ => (pr.1, .err)
    | .undef, _ => (pr.1, .undef)
    | _, .err => (pr.1, .err)
    | _, .undef => (pr.1, .undef)
  | .Call callee args, b =>
    match getFunction mod callee with
    | none => (b, .err)
    | some fe =>
      if fe.params.length ≠ args.length then (b, .err)
      else
        match codegenArgs mod nv args b with
        | (b1, .ok vs) =>
          let q := emit b1 (.callInstr callee vs)
          (q.1, .ok q.2)
        | (b1, .err) => (b1, .err)
        | (b1, .undef) => (b1, .undef)

/-- The argument loop of CallExpressionAST codegen: lower each argument
in order, aborting the whole call on the first argument whose lowering
fails. -/
def codegenArgs (mod : Module) (nv : NamedValues) :
    List ExpressionAST → Builder → Builder × Res (List Value)
  | [], b => (b, .ok [])
  | a :: rest, b =>
    match codegenExpr mod nv a b with
    | (b1, .ok v) =>
      match codegenArgs mod nv rest b1 with
      | (b2, .ok vs) => (b2, .ok (v :: vs))
      | (b2, .err) => (b2, .err)
      | (b2, .undef) => (b2, .undef)
    | (b1, .err) => (b1, .err)
    | (b1, .undef) => (b1, .undef)

end

/-- PrototypeAST: a function name and its parameter names. -/
structure PrototypeAST where
  name : String
  args : List String

/-- FunctionAST: a prototype and the body expression. -/
structure FunctionAST where
  proto : PrototypeAST
  body : ExpressionAST

/-- PrototypeAST codegen: Function::Create appends a fresh, still empty
(bodiless) function carrying the prototype's parameter names to the
module and hands it back. -/
def PrototypeAST.codegen (p : PrototypeAST) (m : Module) : Module × FuncEntry :=
  (m ++ [(p.name, ⟨p.args, false⟩)], ⟨p.args, false⟩)

/-- Attaching the entry basic block makes the function non-empty. -/
def markDefined (m : Module) (n : String) : Module :=
  m.map fun p => if p.1 = n then (p.1, ⟨p.2.params, true⟩) else p

/-- eraseFromParent: removes the function from the module. -/
def eraseFunction (m : Module) (n : String) : Module :=
  m.filter fun p => decide (p.1 ≠ n)

/-- NamedValues.clear() followed by NamedValues[arg.name] = arg for each
parameter of theFunction. -/
def paramBindings (fn : String) (params : List String) : NamedValues :=
  params.foldl (fun acc a => (a, Value.arg fn a) :: acc) []

/-- The output of lowering one Function unit: the module, the
process-wide NamedValues as it stands afterwards, the builder and the
outcome. -/
structure CGOut where
  module : Module
  namedValues : NamedValues
  builder : Builder
  result : Res Unit
deriving DecidableEq

/-- The part of FunctionAST codegen after the redefinition check: create
the entry basic block (the function becomes non-empty), clear NamedValues
and repopulate it with theFunction's parameters, lower the body; on
success emit the return value and keep the function, on failure erase
theFunction from the module and propagate the absent result. -/
def FunctionAST.lowerBody (f : FunctionAST) (m : Module) (entry : FuncEntry)
    (b : Builder) : CGOut :=
  let m1 := markDefined m f.proto.name
  let nv := paramBindings f.proto.name entry.params
  match codegenExpr m1 nv f.body b with
  | (b1, .ok v) => ⟨m1, nv, b1 ++ [.ret v], .ok ()⟩
  | (b1, .err) => ⟨eraseFunction m1 f.proto.name, nv, b1, .err⟩
  | (b1, .undef) => ⟨eraseFunction m1 f.proto.name, nv, b1, .undef⟩

/-- FunctionAST codegen: resolve the prototype's name in the module,
declare the function if absent; a function that is already non-empty
cannot be redefined (LogErrorV, module and NamedValues untouched);
otherwise lower the body. -/
def FunctionAST.codegen (f : FunctionAST) (m : Module) (nv0 : NamedValues)
    (b : Builder) : CGOut :=
  match getFunction m f.proto.name with
  | some e =>
    if e.defined then ⟨m, nv0, b, .err⟩
    else f.lowerBody m e b
  | none =>
    let q := f.proto.codegen m
    f.lowerBody q.1 q.2 b

/-- Invariant of the module table: no entry is a bodiless declaration.
It holds for the empty module and, by C3, is preserved by every Function
lowering, since a failed lowering erases its own declaration. -/
def noBodiless (m : Module) : Prop := ∀ p ∈ m, p.2.defined = true

instance (m : Module) : Decidable (noBodiless m) :=
  inferInstanceAs (Decidable (∀ p ∈ m, p.2.defined = true))

theorem getFunction_mem (m : Module) (n : String) (e : FuncEntry)
    (h : getFunction m n = some e) : (n, e) ∈ m := by
  induction m with
  | nil => simp [getFunction] at h
  | cons p rest ih =>
    rcases p with ⟨k, e1⟩
    by_cases hk : k = n
    · subst hk
      simp [getFunction] at h
      rw [h]
      exact List.mem_cons_self _ _
    · simp only [getFunction, if_neg hk] at h
      exact List.mem_cons_of_mem _ (ih h)

theorem getFunction_none (m : Module) (n : String)
    (h : getFunction m n = none) : ∀ p ∈ m, p.1 ≠ n := by
  induction m with
  | nil => simp
  | cons p rest ih =>
    rcases p with ⟨k, e1⟩
    by_cases hk : k = n
    · simp [getFunction, hk] at h
    · simp only [getFunction, if_neg hk] at h
      intro q hq
      rcases List.mem_cons.mp hq with hq1 | hq2
      · subst hq1; exact hk
      · exact ih h q hq2

theorem eraseFunction_of_absent (m : Module) (n : String)
    (h : ∀ p ∈ m, p.1 ≠ n) : eraseFunction m n = m := by
  induction m with
  | nil => rfl
  | cons p rest ih =>
    have hp : p.1 ≠ n := h p (List.mem_cons_self _ _)
    have hr : ∀ q ∈ rest, q.1 ≠ n := fun q hq => h q (List.mem_cons_of_mem _ hq)
    simpa [eraseFunction, hp] using ih hr

theorem eraseFunction_markDefined (m : Module) (n : String) :
    eraseFunction (markDefined m n) n = eraseFunction m n := by
  induction m with
  | nil => rfl
  | cons p rest ih =>
    rcases p with ⟨k, e⟩
    by_cases hk : k = n
    · subst hk
      simp [markDefined, eraseFunction] at *
      exact ih
    · simp [markDefined, eraseFunction, hk] at *
      exact ih

theorem eraseFunction_append_single (m : Module) (n : String) (e : FuncEntry) :
    eraseFunction (m ++ [(n, e)]) n = eraseFunction m n := by
  simp [eraseFunction, List.filter_append]

theorem noBodiless_markDefined_append (m : Module) (n : String) (e : FuncEntry)
    (hm : noBodiless m) : noBodiless (markDefined (m ++ [(n, e)]) n) := by
  intro p hp
  simp only [markDefined, List.map_append, List.mem_append] at hp
  rcases hp with hp | hp
  · obtain ⟨q, hq, rfl⟩ := List.mem_map.mp hp
    by_cases hk : q.1 = n
    · simp [hk]
    · simpa [hk] using hm q hq
  · obtain ⟨q, hq, rfl⟩ := List.mem_map.mp hp
    simp only [List.mem_singleton] at hq
    subst hq
    simp

/-- C3: with the module invariant that no entry is bodiless, a failed
Function lowering — a redefinition of an already fully defined function,
or a body that fails to lower — leaves the module table exactly as it
was: the original definition under a colliding name is retained
unchanged, no bodiless declaration of the failed unit remains (on body
failure the fresh declaration is erased before the absence is
propagated), and the invariant still holds afterwards whatever the
outcome. -/
theorem C3_failed_lowering_rolls_back (f : FunctionAST) (m : Module)
    (nv0 : NamedValues) (b : Builder) (hm : noBodiless m) :
    ((f.codegen m nv0 b).result ≠ .ok () → (f.codegen m nv0 b).module = m) ∧
    noBodiless (f.codegen m nv0 b).module := by
  cases hg : getFunction m f.proto.name with
  | some e =>
    have hd : e.defined = true := hm _ (getFunction_mem _ _ _ hg)
    have hcg : f.codegen m nv0 b = ⟨m, nv0, b, .err⟩ := by
      simp [FunctionAST.codegen, hg, hd]
    rw [hcg]
    exact ⟨fun _ => rfl, hm⟩
  | none =>
    have habs : ∀ p ∈ m, p.1 ≠ f.proto.name := getFunction_none _ _ hg
    have herase :
        eraseFunction
          (markDefined (m ++ [(f.proto.name, ⟨f.proto.args, false⟩)]) f.proto.name)
          f.proto.name = m := by
      rw [eraseFunction_markDefined, eraseFunction_append_single,
        eraseFunction_of_absent m _ habs]
    simp only [FunctionAST.codegen, hg, PrototypeAST.codegen,
      FunctionAST.lowerBody]
    split
    · exact ⟨fun h => absurd rfl h, noBodiless_markDefined_append m _ _ hm⟩
    · exact ⟨fun _ => herase, by rw [herase]; exact hm⟩
    · exact ⟨fun _ => herase, by rw [herase]; exact hm⟩

/-- Witness for C3: the module already defines g; lowering f whose body
is an unresolved variable fails, and the module afterwards is exactly the
original one. -/
theorem C3_witness :
    noBodiless ([("g", ⟨["a"], true⟩)] : Module) ∧
    (((FunctionAST.codegen ⟨⟨"f", ["x"]⟩, .Variable "y"⟩
        [("g", ⟨["a"], true⟩)] [] []).result ≠ .ok () →
      (FunctionAST.codegen ⟨⟨"f", ["x"]⟩, .Variable "y"⟩
        [("g", ⟨["a"], true⟩)] [] []).module = [("g", ⟨["a"], true⟩)]) ∧
     noBodiless (FunctionAST.codegen ⟨⟨"f", ["x"]⟩, .Variable "y"⟩
        [("g", ⟨["a"], true⟩)] [] []).module) :=
  ⟨by decide,
   C3_failed_lowering_rolls_back ⟨⟨"f", ["x"]⟩, .Variable "y"⟩
     [("g", ⟨["a"], true⟩)] [] [] (by decide)⟩

/-- C4: lowering a Call fails with unknown function referenced when the
callee is absent from the module table; fails with incorrect arguments,
leaving the builder untouched (so no call instruction is emitted), when
the argument count differs from the declared arity; and otherwise lowers
the arguments left to right — the loop stops at the first failing
argument, before any call instruction — and on success appends exactly
one call instruction after the instructions of the arguments. -/
theorem C4_call_codegen (mod : Module) (nv : NamedValues) (callee : String)
    (args : List ExpressionAST) (b : Builder) :
    (getFunction mod callee = none →
      codegenExpr mod nv (.Call callee args) b = (b, .err)) ∧
    (∀ fe, getFunction mod callee = some fe → fe.params.length ≠ args.length →
      codegenExpr mod nv (.Call callee args) b = (b, .err)) ∧
    (∀ fe, getFunction mod callee = some fe → fe.params.length = args.length →
      (∀ b1 vs, codegenArgs mod nv args b = (b1, .ok vs) →
        codegenExpr mod nv (.Call callee args) b
          = (b1 ++ [.callInstr callee vs], .ok (.instr b1.length))) ∧
      (∀ b1, codegenArgs mod nv args b = (b1, .err) →
        codegenExpr mod nv (.Call callee args) b = (b1, .err))) ∧
    (∀ a rest b1, codegenExpr mod nv a b = (b1, .err) →
      codegenArgs mod nv (a :: rest) b = (b1, .err)) ∧
    (∀ a rest b1 v, codegenExpr mod nv a b = (b1, .ok v) →
      ∀ b2 vs, codegenArgs mod nv rest b1 = (b2, .ok vs) →
        codegenArgs mod nv (a :: rest) b = (b2, .ok (v :: vs))) := by
  refine ⟨?_, ?_, ?_, ?_, ?_⟩
  · intro h
    simp [codegenExpr, h]
  · intro fe h hne
    simp only [codegenExpr, h]
    rw [if_pos hne]
  · intro fe h heq
    constructor
    · intro b1 vs hargs
      simp only [codegenExpr, h]
      rw [if_neg (not_not_intro heq), hargs]
      simp [emit]
    · intro b1 hargs
      simp only [codegenExpr, h]
      rw [if_neg (not_not_intro heq), hargs]
  · intro a rest b1 hfail
    simp [codegenArgs, hfail]
  · intro a rest b1 v hok b2 vs hrest
    simp [codegenArgs, hok, hrest]

/-- Witness for C4: g is declared with one parameter and called with two
arguments; the lowering fails and the builder stays empty. -/
theorem C4_witness :
    codegenExpr [("g", ⟨["x"], true⟩)] []
      (.Call "g" [.NumberLiteral "1", .NumberLiteral "2"]) [] = ([], .err) :=
  (C4_call_codegen [("g", ⟨["x"], true⟩)] [] "g"
      [.NumberLiteral "1", .NumberLiteral "2"] []).2.1
    ⟨["x"], true⟩ rfl (by decide)

/-- C5: the claim says the default operator branch propagates absence and
never a value.  The code instead calls LogErrorV, discards its null
result and runs off the end of the function: undefined behaviour, not an
absent result — shown below as the distinct outcome Res.undef on the
operator slash (sixth conjunct), different from the absent result err
(seventh).  The rest of the claim matches the code: both operands are
lowered and a failing operand yields the absent result (fifth conjunct),
and the four known operators dispatch to the add, subtract, multiply and
compare-then-widen operations (first four conjuncts). -/
theorem C5_binary_dispatch_fallthrough :
    codegenExpr [] [] (.Binary '+' (.NumberLiteral "1") (.NumberLiteral "2")) []
      = ([.fadd (.constFP "1") (.constFP "2")], .ok (.instr 0)) ∧
    codegenExpr [] [] (.Binary '-' (.NumberLiteral "1") (.NumberLiteral "2")) []
      = ([.fsub (.constFP "1") (.constFP "2")], .ok (.instr 0)) ∧
    codegenExpr [] [] (.Binary '*' (.NumberLiteral "1") (.NumberLiteral "2")) []
      = ([.fmul (.constFP "1") (.constFP "2")], .ok (.instr 0)) ∧
    codegenExpr [] [] (.Binary '<' (.NumberLiteral "1") (.NumberLiteral "2")) []
      = ([.fcmpULT (.constFP "1") (.constFP "2"), .uitofp (.instr 0)],
         .ok (.instr 1)) ∧
    codegenExpr [] [] (.Binary '+' (.Variable "x") (.NumberLiteral "2")) []
      = ([], .err) ∧
    codegenExpr [] [] (.Binary '/' (.NumberLiteral "1") (.NumberLiteral "2")) []
      = ([], .undef) ∧
    (Res.undef ≠ (Res.err : Res Value)) :=
  ⟨rfl, rfl, rfl, rfl, rfl, rfl, by decide⟩

/-- C9: whenever a Function's body is lowered, the per-function symbol
table it sees has been cleared and repopulated with exactly the parameter
bindings of that function's own prototype: under the no-bodiless module
invariant, either the lowering stops at the redefinition error without
touching NamedValues and without lowering any body (left disjunct), or
the entire outcome is independent of the NamedValues inherited from any
earlier lowering and the NamedValues in effect for the body — returned in
the output — is exactly paramBindings of the function's prototype (right
disjunct). -/
theorem C9_symbol_table_reset (f : FunctionAST) (m : Module)
    (nv0 nv1 : NamedValues) (b : Builder) (hm : noBodiless m) :
    f.codegen m nv0 b = ⟨m, nv0, b, .err⟩ ∨
    (f.codegen m nv0 b = f.codegen m nv1 b ∧
     (f.codegen m nv0 b).namedValues
       = paramBindings f.proto.name f.proto.args) := by
  cases hg : getFunction m f.proto.name with
  | some e =>
    have hd : e.defined = true := hm _ (getFunction_mem _ _ _ hg)
    left
    simp [FunctionAST.codegen, hg, hd]
  | none =>
    right
    refine ⟨by simp [FunctionAST.codegen, hg], ?_⟩
    simp only [FunctionAST.codegen, hg, PrototypeAST.codegen,
      FunctionAST.lowerBody]
    split <;> rfl

/-- Witness for C9: lowering f(x) with body x from a stale NamedValues
left over from a previous function gives the same outcome as from an
empty one, and the body is lowered under exactly the binding of x. -/
theorem C9_witness :
    noBodiless ([] : Module) ∧
    (FunctionAST.codegen ⟨⟨"f", ["x"]⟩, .Variable "x"⟩ []
        [("stale", .constFP "9")] [] = ⟨[], [("stale", .constFP "9")], [], .err⟩ ∨
     (FunctionAST.codegen ⟨⟨"f", ["x"]⟩, .Variable "x"⟩ []
        [("stale", .constFP "9")] []
        = FunctionAST.codegen ⟨⟨"f", ["x"]⟩, .Variable "x"⟩ [] [] [] ∧
      (FunctionAST.codegen ⟨⟨"f", ["x"]⟩, .Variable "x"⟩ []
        [("stale", .constFP "9")] []).namedValues
        = paramBindings "f" ["x"])) :=
  ⟨by decide,
   C9_symbol_table_reset ⟨⟨"f", ["x"]⟩, .Variable "x"⟩ []
     [("stale", .constFP "9")] [] [] (by decide)⟩

end ModK
